import Mathlib

/-
  Shallow embedding of the llm-archive-v2 core (Rust) for specification checking.

  Sources embedded here:
  - src/backend/src/search_enhanced.rs  (incremental_search path selection, SearchDSL.parse, parse_date)
  - src/backend/src/parsers/common.rs   (parse_timestamp_numeric, sanitize_title, generate_conversation_id)
  - src/src/import/parsers/mod.rs       (parse_timestamp, numeric branch)
  - src/backend/src/parsers/claude.rs   (process_attachment, conversation id selection)
  - src/backend/src/parsers/chatgpt.rs  (conversation id selection)
  - src/src/import/mod.rs               (process_conversation_batch) with src/src/db/schema.rs
  - src/backend/src/cache.rs            (SmartCache over the lru crate)

  Strings are modelled as lists of characters; Rust byte-level operations
  (len, slicing) are modelled through explicit UTF-8 byte counting.
-/

namespace LlmArchive

/-! Section: Rust character and string primitives -/

/-- The Unicode White_Space property, as matched by Rust char::is_whitespace. -/
def rustIsWhitespace (c : Char) : Bool :=
  let n := c.toNat
  n = 0x09 || n = 0x0A || n = 0x0B || n = 0x0C || n = 0x0D || n = 0x20 ||
  n = 0x85 || n = 0xA0 || n = 0x1680 || (0x2000 ≤ n && n ≤ 0x200A) ||
  n = 0x2028 || n = 0x2029 || n = 0x202F || n = 0x205F || n = 0x3000

/-- UTF-8 encoding of a single character, as a list of byte values. -/
def charUtf8 (c : Char) : List Nat :=
  let n := c.toNat
  if n < 0x80 then [n]
  else if n < 0x800 then [0xC0 + n / 64, 0x80 + n % 64]
  else if n < 0x10000 then [0xE0 + n / 4096, 0x80 + (n / 64) % 64, 0x80 + n % 64]
  else [0xF0 + n / 262144, 0x80 + (n / 4096) % 64, 0x80 + (n / 64) % 64, 0x80 + n % 64]

/-- UTF-8 byte length of a character list, matching Rust str::len. -/
def utf8Len (s : List Char) : Nat := (s.map (fun c => (charUtf8 c).length)).sum

/-- UTF-8 bytes of a string. -/
def strUtf8 (s : String) : List Nat := (s.toList.map charUtf8).flatten

/-- Worker for whitespace splitting; acc holds the current token reversed. -/
def splitWsAux : List Char → List Char → List (List Char)
  | [], acc => if acc = [] then [] else [acc.reverse]
  | c :: cs, acc =>
    if rustIsWhitespace c then
      if acc = [] then splitWsAux cs [] else acc.reverse :: splitWsAux cs []
    else splitWsAux cs (c :: acc)

/-- Rust str::split_whitespace: split on Unicode whitespace, dropping empty tokens. -/
def splitWhitespace (s : List Char) : List (List Char) := splitWsAux s []

/-- Rust str::split_once with separator colon: split at the first colon. -/
def splitOnceColon : List Char → Option (List Char × List Char)
  | [] => none
  | c :: cs =>
    if c = ':' then some ([], cs)
    else
      match splitOnceColon cs with
      | some (a, b) => some (c :: a, b)
      | none => none

/-- Worker for dash splitting; keeps empty fields, like Rust str::split. -/
def splitDashAux : List Char → List Char → List (List Char)
  | [], acc => [acc.reverse]
  | c :: cs, acc => if c = '-' then acc.reverse :: splitDashAux cs [] else splitDashAux cs (c :: acc)

/-- Rust str::split with separator dash. -/
def splitOnDash (s : List Char) : List (List Char) := splitDashAux s []

/-- ASCII decimal digit test on the code point. -/
def isAsciiDigit (c : Char) : Bool := 48 ≤ c.toNat && c.toNat ≤ 57

/-- Numeric value of a list of decimal digit characters. -/
def digitsVal (s : List Char) : Nat := s.foldl (fun a c => a * 10 + (c.toNat - 48)) 0

/-- Rust str::parse::<i32>: optional sign, decimal digits, i32 range check. -/
def parseI32 (s : List Char) : Option Int :=
  let signDigits : Int × List Char :=
    match s with
    | [] => (1, [])
    | c :: rest => if c = '+' then (1, rest) else if c = '-' then (-1, rest) else (1, c :: rest)
  let sign := signDigits.1
  let digits := signDigits.2
  if digits = [] then none
  else if digits.all (fun c => isAsciiDigit c) then
    let v : Int := sign * (digitsVal digits : Int)
    if -(2 ^ 31) ≤ v ∧ v ≤ 2 ^ 31 - 1 then some v else none
  else none

/-- Rust Vec::join with a single space. -/
def joinSpaces : List (List Char) → List Char
  | [] => []
  | [x] => x
  | x :: y :: xs => x ++ ' ' :: joinSpaces (y :: xs)

/-! Section: search_enhanced.rs: parse_date and SearchDSL -/

/-- The function parse_date of search_enhanced.rs: splits on dashes and computes an
approximate timestamp with 365-day years and 30-day months. Fields that fail to
parse fall back to 2024, 1, 1 respectively. -/
def parse_date (s : List Char) : Except String Int :=
  let parts := splitOnDash s
  if parts.length = 3 then
    let year : Int := (parseI32 parts[0]!).getD 2024
    let month : Int := (parseI32 parts[1]!).getD 1
    let day : Int := (parseI32 parts[2]!).getD 1
    Except.ok ((year - 1970) * 365 * 24 * 60 * 60 +
               (month - 1) * 30 * 24 * 60 * 60 +
               (day - 1) * 24 * 60 * 60)
  else Except.error "Invalid date format"

/-- The struct SearchDSL of search_enhanced.rs. -/
structure SearchDSL where
  text : Option (List Char) := none
  provider : Option (List Char) := none
  role : Option (List Char) := none
  after_timestamp : Option Int := none
  before_timestamp : Option Int := none
  limit : Option Int := none
deriving DecidableEq, Repr

/-- One iteration of the token loop in SearchDSL::parse: the state is the DSL
under construction plus the accumulated free-text tokens. -/
def parseStep (st : SearchDSL × List (List Char)) (part : List Char) : SearchDSL × List (List Char) :=
  match splitOnceColon part with
  | some (key, value) =>
    if key = "provider".toList then ({ st.1 with provider := some value }, st.2)
    else if key = "role".toList then ({ st.1 with role := some value }, st.2)
    else if key = "after".toList then
      match parse_date value with
      | Except.ok ts => ({ st.1 with after_timestamp := some ts }, st.2)
      | Except.error _ => (st.1, st.2)
    else if key = "before".toList then
      match parse_date value with
      | Except.ok ts => ({ st.1 with before_timestamp := some ts }, st.2)
      | Except.error _ => (st.1, st.2)
    else (st.1, st.2 ++ [part])
  | none => (st.1, st.2 ++ [part])

/-- SearchDSL::parse of search_enhanced.rs. -/
def SearchDSL.parse (query : List Char) : SearchDSL :=
  let parts := splitWhitespace query
  let folded := parts.foldl parseStep ({}, [])
  if folded.2 ≠ [] then { folded.1 with text := some (joinSpaces folded.2) } else folded.1

/-- A query token is recognized when it splits at a colon and its key is in the
closed set of SearchDSL::parse. -/
def isRecognizedKeyToken (tok : List Char) : Bool :=
  match splitOnceColon tok with
  | some (key, _) =>
    key = "provider".toList || key = "role".toList ||
    key = "after".toList || key = "before".toList
  | none => false

/-- The free-text tokens of a query: bare tokens and tokens with an unrecognized key. -/
def freeTokens (q : List Char) : List (List Char) :=
  (splitWhitespace q).filter (fun t => !isRecognizedKeyToken t)

/-! Section: search_enhanced.rs: incremental_search path selection -/

/-- The three ways incremental_search can answer a query. -/
inductive QueryPath
  | cachedResult
  | shortLike
  | fullText
deriving DecidableEq, Repr

/-- Path selection in incremental_search: cached results are returned directly;
otherwise queries shorter than 3 bytes go to LIKE matching and the rest to FTS5. -/
def incremental_search_path (cacheHit : Bool) (query : List Char) : QueryPath :=
  if cacheHit then QueryPath.cachedResult
  else if utf8Len query < 3 then QueryPath.shortLike
  else QueryPath.fullText

/-- The LIKE pattern built in prefix_search: the query followed by a percent sign. -/
def like_pattern (query : List Char) : List Char := query ++ ['%']

/-! Section: Calendar arithmetic (reference definition for claims about dates) -/

/-- Modelled from the spec: days since 1970-01-01 of a proleptic Gregorian calendar
date, the standard civil-calendar algorithm. Used as the reference meaning of
the phrase "Unix epoch integer of a calendar date at midnight UTC". -/
def daysFromCivil (y m d : Int) : Int :=
  let yAdj := if m ≤ 2 then y - 1 else y
  let era := Int.tdiv (if 0 ≤ yAdj then yAdj else yAdj - 399) 400
  let yoe := yAdj - era * 400
  let mp := if 2 < m then m - 3 else m + 9
  let doy := Int.tdiv (153 * mp + 2) 5 + d - 1
  let doe := yoe * 365 + Int.tdiv yoe 4 - Int.tdiv yoe 100 + doy
  era * 146097 + doe - 719468

/-- Modelled from the spec: seconds since the Unix epoch of a calendar date at
00:00:00 UTC. -/
def epochOfDate (y m d : Int) : Int := 86400 * daysFromCivil y m d

/-! Section: Timestamp construction (the chrono layer used by both parsers) -/

/-- Largest epoch second representable by chrono (year 262143). -/
def chronoMaxSecs : Int := 86400 * daysFromCivil 262143 12 31 + 86399

/-- Smallest epoch second representable by chrono (year -262144). -/
def chronoMinSecs : Int := 86400 * daysFromCivil (-262144) 1 1

/-- chrono DateTime::from_timestamp at nanosecond 0, modelled on integral seconds;
instants are milliseconds since the epoch, none models the out-of-range case. -/
def fromTimestampSecs (secs : Int) : Option Int :=
  if chronoMinSecs ≤ secs ∧ secs ≤ chronoMaxSecs then some (secs * 1000) else none

/-- chrono DateTime::from_timestamp_millis, same instant model. -/
def fromTimestampMillis (ms : Int) : Option Int :=
  if chronoMinSecs ≤ Int.ediv ms 1000 ∧ Int.ediv ms 1000 ≤ chronoMaxSecs then some ms else none

/-- parse_timestamp_numeric of backend/src/parsers/common.rs on integral inputs:
values above 1e11 are taken as milliseconds, the rest as seconds; out-of-range
values fall back to the current time, passed here as an explicit argument. -/
def parse_timestamp_numeric (now v : Int) : Int :=
  if v > 100000000000 then (fromTimestampMillis v).getD now
  else (fromTimestampSecs v).getD now

/-- The numeric branch of parse_timestamp in src/src/import/parsers/mod.rs: an
integral JSON number is always passed to DateTime::from_timestamp as seconds,
with no magnitude heuristic. -/
def import_parse_timestamp_number (v : Int) : Option Int :=
  fromTimestampSecs v

/-! Section: sanitize_title of backend/src/parsers/common.rs -/

/-- Rust str::trim: strip leading and trailing Unicode whitespace. -/
def rustTrim (s : List Char) : List Char :=
  ((s.dropWhile (fun c => rustIsWhitespace c)).reverse.dropWhile
    (fun c => rustIsWhitespace c)).reverse

/-- Rust byte slicing s[..n] at character granularity: returns the characters
covering exactly n UTF-8 bytes, or none when byte n is not a character boundary
(in which case Rust panics). -/
def takeBytes : List Char → Nat → Option (List Char)
  | _, 0 => some []
  | [], _ + 1 => none
  | c :: cs, n + 1 =>
    if (charUtf8 c).length ≤ n + 1 then
      (takeBytes cs (n + 1 - (charUtf8 c).length)).map (fun t => c :: t)
    else none

/-- sanitize_title of backend/src/parsers/common.rs. The none result models the
panic of the byte slice cleaned[..197] when byte 197 falls inside a multi-byte
character. -/
def sanitize_title (title default : List Char) : Option (List Char) :=
  let cleaned := rustTrim title
  if cleaned = [] then some default
  else if 200 < utf8Len cleaned then
    match takeBytes cleaned 197 with
    | some t => some (t ++ ['.', '.', '.'])
    | none => none
  else some cleaned

/-! Section: process_attachment of backend/src/parsers/claude.rs -/

/-- Whether the first list is a leading segment of the second. -/
def listIsPre : List Char → List Char → Bool
  | [], _ => true
  | _ :: _, [] => false
  | x :: xs, y :: ys => x = y && listIsPre xs ys

/-- Whether the needle occurs contiguously inside the haystack. -/
def listHasInfix (needle : List Char) : List Char → Bool
  | [] => listIsPre needle []
  | c :: cs => listIsPre needle (c :: cs) || listHasInfix needle cs

/-- Rust str::contains for a literal substring. -/
def strContains (hay needle : String) : Bool := listHasInfix needle.toList hay.toList

/-- The attachment fields read by process_attachment. -/
structure AttachmentDoc where
  file_name : Option String
  uuid : Option String
  file_type : Option String
  file_size : Option Nat
  extracted_content : Option String
deriving DecidableEq, Repr

/-- The MediaFile record built by the Claude parser. -/
structure MediaFile where
  filename : String
  filepath : String
  mime_type : Option String
  size_bytes : Option Nat
  extracted_content : Option String
deriving DecidableEq, Repr

/-- Lookup in the all_media map, keyed by logical path. -/
def mediaLookup (m : List (String × MediaFile)) (k : String) : Option MediaFile :=
  (m.find? (fun p => p.1 = k)).map (fun p => p.2)

/-- process_attachment of claude.rs. mimeOf stands for the external mime_guess
lookup by file name, used only when the attachment carries no file_type. -/
def process_attachment (mimeOf : String → Option String) (att : AttachmentDoc)
    (convUuid : String) (msgIdx attIdx : Nat)
    (allMedia : List (String × MediaFile)) (messageContent : String) :
    Option MediaFile × List (String × MediaFile) :=
  match att.file_name with
  | none => (none, allMedia)
  | some fileName =>
    let msgUuid := att.uuid.getD ("msg" ++ toString msgIdx ++ "_att" ++ toString attIdx)
    let logicalPath := "claude_attachments/" ++ convUuid ++ "/" ++ msgUuid ++ "/" ++ fileName
    match mediaLookup allMedia logicalPath with
    | some existing => (some existing, allMedia)
    | none =>
      let baseMedia : MediaFile :=
        { filename := fileName
          filepath := logicalPath
          mime_type :=
            match att.file_type with
            | some t => some t
            | none => mimeOf fileName
          size_bytes := att.file_size
          extracted_content := att.extracted_content }
      let media :=
        match att.extracted_content with
        | some extracted =>
          if strContains messageContent extracted then { baseMedia with extracted_content := none }
          else baseMedia
        | none => baseMedia
      (some media, allMedia ++ [(logicalPath, media)])

/-! Section: generate_conversation_id: DefaultHasher (SipHash-1-3 with zero keys) -/

/-- 2 to the 64th, the modulus of 64-bit arithmetic. -/
def u64Mod : Nat := 18446744073709551616

/-- 64-bit wrapping addition. -/
def wadd (a b : Nat) : Nat := (a + b) % u64Mod

/-- 64-bit left rotation. -/
def rotl64 (a r : Nat) : Nat := ((a <<< r) % u64Mod) ||| (a >>> (64 - r))

/-- The four 64-bit state words of SipHash. -/
structure SipState where
  v0 : Nat
  v1 : Nat
  v2 : Nat
  v3 : Nat
deriving Repr

/-- One SipHash round. -/
def sipRound (s : SipState) : SipState :=
  let a0 := wadd s.v0 s.v1
  let b1 := rotl64 s.v1 13
  let c1 := b1 ^^^ a0
  let d0 := rotl64 a0 32
  let a2 := wadd s.v2 s.v3
  let b3 := rotl64 s.v3 16
  let c3 := b3 ^^^ a2
  let e0 := wadd d0 c3
  let d3 := rotl64 c3 21
  let e3 := d3 ^^^ e0
  let b2 := wadd a2 c1
  let d1 := rotl64 c1 17
  let e1 := d1 ^^^ b2
  let c2 := rotl64 b2 32
  ⟨e0, e1, c2, e3⟩

/-- Little-endian word value of up to eight bytes. -/
def leWord (bytes : List Nat) : Nat := bytes.foldr (fun b acc => acc * 256 + b) 0

/-- SipHash-1-3 compression of one message word. -/
def sipCompress (s : SipState) (m : Nat) : SipState :=
  let s1 : SipState := { s with v3 := s.v3 ^^^ m }
  let s2 := sipRound s1
  { s2 with v0 := s2.v0 ^^^ m }

/-- Consume the byte stream in 8-byte little-endian words, then finalize with the
length-tagged last word and three rounds. -/
def sipProcess (s : SipState) (len : Nat) : List Nat → Nat
  | b0 :: b1 :: b2 :: b3 :: b4 :: b5 :: b6 :: b7 :: rest =>
    sipProcess (sipCompress s (leWord [b0, b1, b2, b3, b4, b5, b6, b7])) len rest
  | tail =>
    let b := ((len % 256) <<< 56) + leWord tail
    let s1 := sipCompress s b
    let s2 : SipState := { s1 with v2 := s1.v2 ^^^ 0xFF }
    let s3 := sipRound (sipRound (sipRound s2))
    s3.v0 ^^^ s3.v1 ^^^ s3.v2 ^^^ s3.v3

/-- SipHash-1-3 with both keys zero, the default hasher state of Rust. -/
def sipHash13 (data : List Nat) : Nat :=
  sipProcess ⟨0x736f6d6570736575, 0x646f72616e646f6d, 0x6c7967656e657261, 0x7465646279746573⟩
    data.length data

/-- The eight little-endian bytes of a 64-bit value. -/
def leBytes8 (n : Nat) : List Nat :=
  [n % 256, n / 256 % 256, n / 65536 % 256, n / 16777216 % 256,
   n / 4294967296 % 256, n / 1099511627776 % 256, n / 281474976710656 % 256,
   n / 72057594037927936 % 256]

/-- generate_conversation_id of backend/src/parsers/common.rs: hash provider, path
and index with DefaultHasher (each Rust string hash feeds its bytes plus a 0xFF
sentinel; usize feeds eight little-endian bytes) and format as
provider_index_hexhash. -/
def generate_conversation_id (provider filePath : String) (index : Nat) : String :=
  let stream := strUtf8 provider ++ [0xFF] ++ strUtf8 filePath ++ [0xFF] ++ leBytes8 index
  provider ++ "_" ++ toString index ++ "_" ++ String.mk (Nat.toDigits 16 (sipHash13 stream))

/-- Conversation id selection in extract_single_conversation of claude.rs: the
uuid field (defaulted to the empty string when absent) selects between the
claude_uuid form and the hash id. -/
def claudeConversationId (uuidField : Option String) (file : String) (index : Nat) : String :=
  let convUuid := uuidField.getD ""
  if convUuid ≠ "" then "claude_" ++ convUuid else generate_conversation_id "claude" file index

/-- Conversation id selection in extract_from_mapping_format of chatgpt.rs: the
document-supplied external identifier is ignored and the hash id is used
unconditionally. -/
def chatgptConversationId (_externalIdField : Option String) (file : String) (index : Nat) :
    String :=
  generate_conversation_id "chatgpt" file index

/-! Section: SmartCache of backend/src/cache.rs over the lru crate -/

/-- One cache slot: key, value and absolute expiry instant. -/
structure CacheEntry (K V : Type) where
  key : K
  value : V
  expiresAt : Nat
deriving DecidableEq, Repr

/-- SmartCache::get at an explicit current instant: a present unexpired entry is
promoted to most recently used and its value returned; a present expired entry
is removed; recency order is the list order, front first. -/
def cacheGet {K V : Type} [DecidableEq K] (now : Nat) (st : List (CacheEntry K V)) (k : K) :
    Option V × List (CacheEntry K V) :=
  match st.find? (fun e => e.key = k) with
  | some e =>
    if now < e.expiresAt then (some e.value, e :: st.eraseP (fun x => decide (x.key = k)))
    else (none, st.eraseP (fun x => decide (x.key = k)))
  | none => (none, st)

/-- SmartCache::insert at an explicit current instant: LruCache::put updates and
promotes an existing key, otherwise inserts at the front, evicting the least
recently used entry at capacity. -/
def cachePut {K V : Type} [DecidableEq K] (cap ttl now : Nat) (st : List (CacheEntry K V))
    (k : K) (v : V) : List (CacheEntry K V) :=
  let entry : CacheEntry K V := ⟨k, v, now + ttl⟩
  if st.any (fun e => e.key = k) then entry :: st.eraseP (fun e => decide (e.key = k))
  else if cap ≤ st.length then entry :: st.dropLast
  else entry :: st

/-- Insert a sequence of keys in order into an initially empty cache, each with
its own value and insertion instant. -/
def cacheInsertAll {K V : Type} [DecidableEq K] (cap ttl : Nat) (tf : K → Nat) (vf : K → V)
    (ks : List K) : List (CacheEntry K V) :=
  ks.foldl (fun s k => cachePut cap ttl (tf k) s k (vf k)) []

/-! Section: process_conversation_batch of src/src/import/mod.rs over the schema of
src/src/db/schema.rs -/

/-- The conversation column values supplied by an import (ids are assigned by the
store). Temperature, a Rust f32 carried through unchanged, is modelled as a
rational. -/
structure ConvData where
  provider : String
  external_id : Option String
  title : Option String
  model : Option String
  created_at : Int
  updated_at : Int
  raw_json : Option String
  system_prompt : Option String
  temperature : Option Rat
  max_tokens : Option Int
  user_id : Option String
deriving DecidableEq, Repr

/-- The message column values supplied by an import. -/
structure MsgData where
  role : String
  content : String
  model : Option String
  created_at : Int
  tokens : Option Int
  finish_reason : Option String
  tool_calls : Option String
  attachments : Option String
deriving DecidableEq, Repr

/-- A stored conversation row: integer primary key plus column values. -/
structure ConvRow where
  id : Nat
  data : ConvData
deriving DecidableEq, Repr

/-- A stored message row: integer primary key, owning conversation, columns. -/
structure MsgRow where
  id : Nat
  conversation_id : Nat
  data : MsgData
deriving DecidableEq, Repr

/-- The store: the two tables and the next primary keys. -/
structure Db where
  conversations : List ConvRow
  messages : List MsgRow
  nextConvId : Nat
  nextMsgId : Nat
deriving DecidableEq, Repr

/-- SQLite conflict test for UNIQUE(provider, external_id): rows with a NULL
external_id never conflict (SQL NULLs are pairwise distinct in a UNIQUE index). -/
def convConflicts (c : ConvData) (r : ConvRow) : Bool :=
  r.data.provider = c.provider &&
    match c.external_id, r.data.external_id with
    | some e1, some e2 => e1 = e2
    | _, _ => false

/-- The DO UPDATE SET clause of the upsert: overwrite the mutable columns with the
excluded values; provider, external_id and created_at are untouched. -/
def upsertFields (old incoming : ConvData) : ConvData :=
  { old with
    title := incoming.title
    model := incoming.model
    updated_at := incoming.updated_at
    raw_json := incoming.raw_json
    system_prompt := incoming.system_prompt
    temperature := incoming.temperature
    max_tokens := incoming.max_tokens
    user_id := incoming.user_id }

/-- The conversation INSERT ... ON CONFLICT(provider, external_id) DO UPDATE ...
RETURNING id statement: returns the updated store and the row id. -/
def insertConversation (db : Db) (c : ConvData) : Db × Nat :=
  match db.conversations.find? (fun r => convConflicts c r) with
  | some r =>
    ({ db with
        conversations := db.conversations.map
          (fun row => if row.id = r.id then { row with data := upsertFields row.data c } else row) },
      r.id)
  | none =>
    ({ db with
        conversations := db.conversations ++ [⟨db.nextConvId, c⟩]
        nextConvId := db.nextConvId + 1 },
      db.nextConvId)

/-- The message INSERT statement: always appends a fresh row. -/
def insertMessage (db : Db) (convId : Nat) (m : MsgData) : Db :=
  { db with
    messages := db.messages ++ [⟨db.nextMsgId, convId, m⟩]
    nextMsgId := db.nextMsgId + 1 }

/-- Counts accumulated by process_conversation_batch. -/
structure BatchStats where
  conversations : Nat
  messages : Nat
deriving DecidableEq, Repr

/-- The message loop inside the transaction. The environment env models the
fallible store: statement n succeeds when env n is true. State: working copy of
the store, message count, statement counter. -/
def insertMessagesTx (env : Nat → Bool) (tx : Db) (convId : Nat) (ms n : Nat) :
    List MsgData → Except Unit (Db × Nat × Nat)
  | [] => Except.ok (tx, ms, n)
  | m :: rest =>
    if env n then insertMessagesTx env (insertMessage tx convId m) convId (ms + 1) (n + 1) rest
    else Except.error ()

/-- The conversation loop inside the transaction. -/
def insertBatchTx (env : Nat → Bool) (tx : Db) (cs ms n : Nat) :
    List (ConvData × List MsgData) → Except Unit (Db × Nat × Nat × Nat)
  | [] => Except.ok (tx, cs, ms, n)
  | (c, msgs) :: rest =>
    if env n then
      let step := insertConversation tx c
      match insertMessagesTx env step.1 step.2 ms (n + 1) msgs with
      | Except.ok (tx2, ms2, n2) => insertBatchTx env tx2 (cs + 1) ms2 n2 rest
      | Except.error e => Except.error e
    else Except.error ()

/-- process_conversation_batch of src/src/import/mod.rs: begin a transaction on a
working copy, run every upsert and message insert, then commit (the final
statement). Any failure leaves the pool state untouched; only a successful
commit publishes the working copy. -/
def process_conversation_batch (env : Nat → Bool) (db : Db)
    (batch : List (ConvData × List MsgData)) : Db × Except Unit BatchStats :=
  match insertBatchTx env db 0 0 0 batch with
  | Except.ok (tx, cs, ms, n) =>
    if env n then (tx, Except.ok ⟨cs, ms⟩) else (db, Except.error ())
  | Except.error _ => (db, Except.error ())

/-- The failure-free meaning of a batch: fold the upsert and the message inserts
over the store. -/
def applyBatchPure (db : Db) (batch : List (ConvData × List MsgData)) : Db :=
  batch.foldl
    (fun d p =>
      let step := insertConversation d p.1
      p.2.foldl (fun dd m => insertMessage dd step.2 m) step.1)
    db

/-! Predicates and concrete fixtures used by the theorems below -/

/-- Modelled from the spec: at most one conversation row per (provider,
external_id) pair, with no exception for NULL external ids. -/
def UniquePairsClaimed (db : Db) : Prop :=
  ∀ r1 ∈ db.conversations, ∀ r2 ∈ db.conversations,
    r1.data.provider = r2.data.provider → r1.data.external_id = r2.data.external_id → r1 = r2

/-- At most one conversation row per (provider, external_id) pair whose
external_id is non-NULL; this is the invariant the SQLite schema enforces. -/
def UniquePairs (db : Db) : Prop :=
  ∀ r1 ∈ db.conversations, ∀ r2 ∈ db.conversations,
    r1.data.provider = r2.data.provider → r1.data.external_id = r2.data.external_id →
    r1.data.external_id ≠ none → r1 = r2

/-- Well-formedness of the store: conversation primary keys are distinct and
below the next key. -/
def IdsNodup (db : Db) : Prop :=
  (db.conversations.map (fun r => r.id)).Nodup ∧
  ∀ r ∈ db.conversations, r.id < db.nextConvId

instance (db : Db) : Decidable (UniquePairsClaimed db) := by
  unfold UniquePairsClaimed; infer_instance

instance (db : Db) : Decidable (UniquePairs db) := by
  unfold UniquePairs; infer_instance

instance (db : Db) : Decidable (IdsNodup db) := by
  unfold IdsNodup; infer_instance

/-- A conversation with a NULL external id, as the xai parser can produce. -/
def convNullRow : ConvData :=
  { provider := "xai", external_id := none, title := some "t", model := none,
    created_at := 0, updated_at := 0, raw_json := none, system_prompt := none,
    temperature := none, max_tokens := none, user_id := none }

/-- The freshly migrated empty store. -/
def emptyDb : Db := ⟨[], [], 1, 1⟩

/-- A conversation with a non-NULL external id. -/
def convExtA : ConvData :=
  { provider := "claude", external_id := some "e1", title := some "old", model := none,
    created_at := 5, updated_at := 5, raw_json := none, system_prompt := none,
    temperature := none, max_tokens := none, user_id := none }

/-- A re-import of the same conversation with changed mutable fields. -/
def convExtB : ConvData := { convExtA with title := some "new", updated_at := 9 }

/-- A stored message row payload. -/
def msgA : MsgData :=
  { role := "user", content := "hi", model := none, created_at := 5, tokens := none,
    finish_reason := none, tool_calls := none, attachments := none }

/-- A store with one conversation and one message already imported. -/
def dbOneRow : Db := ⟨[⟨1, convExtA⟩], [⟨1, 1, msgA⟩], 2, 2⟩

/-- The logical path process_attachment computes for an attachment. -/
def logicalPathOf (att : AttachmentDoc) (convUuid : String) (msgIdx attIdx : Nat)
    (fileName : String) : String :=
  "claude_attachments/" ++ convUuid ++ "/" ++
    (att.uuid.getD ("msg" ++ toString msgIdx ++ "_att" ++ toString attIdx)) ++ "/" ++ fileName

/-- An attachment whose extracted content is the word hello. -/
def c7Att : AttachmentDoc := ⟨some "notes.txt", some "att-uuid-1", none, none, some "hello"⟩

/-- An attachment whose extracted content is the word abc. -/
def c7AttW : AttachmentDoc := ⟨some "f.txt", some "u9", none, none, some "abc"⟩

/-- A title of 201 UTF-8 bytes whose byte 197 falls inside a two-byte character. -/
def c10FailingTitle : List Char := List.replicate 196 'a' ++ 'é' :: "abc".toList

/-- The cache entry produced for key k when inserted at instant tf k. -/
def entryOf {K V : Type} (ttl : Nat) (tf : K → Nat) (vf : K → V) (k : K) : CacheEntry K V :=
  ⟨k, vf k, tf k + ttl⟩

/-! Section: helper lemmas about the string primitives -/

theorem digit_not_ws (c : Char) (h : isAsciiDigit c = true) : rustIsWhitespace c = false := by
  unfold isAsciiDigit at h
  unfold rustIsWhitespace
  simp only [Bool.and_eq_true, decide_eq_true_eq] at h
  simp only [Bool.or_eq_false_iff, decide_eq_false_iff_not, Bool.and_eq_false_iff,
    decide_eq_false_iff_not]
  omega

theorem digit_ne_dash (c : Char) (h : isAsciiDigit c = true) : c ≠ '-' := by
  intro hc
  subst hc
  simp [isAsciiDigit] at h

theorem digit_ne_plus (c : Char) (h : isAsciiDigit c = true) : c ≠ '+' := by
  intro hc
  subst hc
  simp [isAsciiDigit] at h

theorem splitWsAux_no_ws (l : List Char) (acc : List Char)
    (h : ∀ c ∈ l, rustIsWhitespace c = false) :
    splitWsAux l acc = if acc.reverse ++ l = [] then [] else [acc.reverse ++ l] := by
  induction l generalizing acc with
  | nil => simp [splitWsAux]
  | cons c cs ih =>
    have hc : rustIsWhitespace c = false := h c (by simp)
    rw [splitWsAux, hc]
    simp only [Bool.false_eq_true, if_false]
    rw [ih (c :: acc) (fun x hx => h x (by simp [hx]))]
    simp [List.reverse_cons, List.append_assoc]

theorem splitWhitespace_single (t : List Char) (hne : t ≠ [])
    (h : ∀ c ∈ t, rustIsWhitespace c = false) : splitWhitespace t = [t] := by
  unfold splitWhitespace
  rw [splitWsAux_no_ws t [] h]
  simp [hne]

theorem splitOnceColon_left (pre v : List Char) (h : ∀ c ∈ pre, c ≠ ':') :
    splitOnceColon (pre ++ ':' :: v) = some (pre, v) := by
  induction pre with
  | nil => simp [splitOnceColon]
  | cons c cs ih =>
    have hc : c ≠ ':' := h c (by simp)
    rw [List.cons_append, splitOnceColon]
    simp only [hc, if_false]
    rw [ih (fun x hx => h x (by simp [hx]))]

theorem splitDashAux_no_dash (l acc : List Char) (h : ∀ c ∈ l, c ≠ '-') :
    splitDashAux l acc = [acc.reverse ++ l] := by
  induction l generalizing acc with
  | nil => simp [splitDashAux]
  | cons c cs ih =>
    have hc : c ≠ '-' := h c (by simp)
    rw [splitDashAux]
    simp only [hc, if_false]
    rw [ih (c :: acc) (fun x hx => h x (by simp [hx]))]
    simp [List.reverse_cons, List.append_assoc]

theorem splitDashAux_head (a r acc : List Char) (h : ∀ c ∈ a, c ≠ '-') :
    splitDashAux (a ++ '-' :: r) acc = (acc.reverse ++ a) :: splitDashAux r [] := by
  induction a generalizing acc with
  | nil => simp [splitDashAux]
  | cons c cs ih =>
    have hc : c ≠ '-' := h c (by simp)
    rw [List.cons_append, splitDashAux]
    simp only [hc, if_false]
    rw [ih (c :: acc) (fun x hx => h x (by simp [hx]))]
    simp [List.reverse_cons, List.append_assoc]

theorem parseI32_digits (s : List Char) (hne : s ≠ [])
    (hd : ∀ c ∈ s, isAsciiDigit c = true) (hb : digitsVal s ≤ 2147483647) :
    parseI32 s = some (digitsVal s : Int) := by
  match s, hne with
  | c :: cs, _ =>
    have hcd : isAsciiDigit c = true := hd c (by simp)
    have hcp : c ≠ '+' := digit_ne_plus c hcd
    have hcm : c ≠ '-' := digit_ne_dash c hcd
    have hall : ((c :: cs).all fun x => isAsciiDigit x) = true := List.all_eq_true.mpr hd
    have h1 : (c :: cs) ≠ ([] : List Char) := by simp
    unfold parseI32
    simp only [hcp, hcm, if_false]
    rw [if_neg h1, if_pos hall, if_pos (by constructor <;> (rw [one_mul]) <;> omega), one_mul]

/-! Section: helper lemmas about the DSL token loop -/

theorem foldl_parseStep_snd (parts : List (List Char)) (dsl : SearchDSL) (acc : List (List Char)) :
    (parts.foldl parseStep (dsl, acc)).2 =
      acc ++ parts.filter (fun t => !isRecognizedKeyToken t) := by
  induction parts generalizing dsl acc with
  | nil => simp
  | cons t rest ih =>
    rw [List.foldl_cons, List.filter_cons]
    have hstep : parseStep (dsl, acc) t =
        ((parseStep (dsl, acc) t).1, acc ++ if isRecognizedKeyToken t then [] else [t]) := by
      unfold parseStep isRecognizedKeyToken
      cases hsp : splitOnceColon t with
      | none => simp
      | some kv =>
        obtain ⟨k, v⟩ := kv
        by_cases hk1 : k = ['p', 'r', 'o', 'v', 'i', 'd', 'e', 'r']
        · simp [hk1]
        · by_cases hk2 : k = ['r', 'o', 'l', 'e']
          · simp [hk1, hk2]
          · by_cases hk3 : k = ['a', 'f', 't', 'e', 'r']
            · cases hpd : parse_date v with
              | ok ts => simp [hk1, hk2, hk3, hpd]
              | error e => simp [hk1, hk2, hk3, hpd]
            · by_cases hk4 : k = ['b', 'e', 'f', 'o', 'r', 'e']
              · cases hpd : parse_date v with
                | ok ts => simp [hk1, hk2, hk3, hk4, hpd]
                | error e => simp [hk1, hk2, hk3, hk4, hpd]
              · simp [hk1, hk2, hk3, hk4]
    rw [hstep, ih]
    cases hr : isRecognizedKeyToken t <;> simp [hr]

theorem foldl_parseStep_fst_text (parts : List (List Char)) (dsl : SearchDSL)
    (acc : List (List Char)) :
    ((parts.foldl parseStep (dsl, acc)).1).text = dsl.text := by
  induction parts generalizing dsl acc with
  | nil => rfl
  | cons t rest ih =>
    rw [List.foldl_cons]
    have hstep : ((parseStep (dsl, acc) t).1).text = dsl.text := by
      unfold parseStep
      cases hsp : splitOnceColon t with
      | none => simp
      | some kv =>
        obtain ⟨k, v⟩ := kv
        by_cases hk1 : k = ['p', 'r', 'o', 'v', 'i', 'd', 'e', 'r']
        · simp [hk1]
        · by_cases hk2 : k = ['r', 'o', 'l', 'e']
          · simp [hk1, hk2]
          · by_cases hk3 : k = ['a', 'f', 't', 'e', 'r']
            · cases hpd : parse_date v with
              | ok ts => simp [hk1, hk2, hk3, hpd]
              | error e => simp [hk1, hk2, hk3, hpd]
            · by_cases hk4 : k = ['b', 'e', 'f', 'o', 'r', 'e']
              · cases hpd : parse_date v with
                | ok ts => simp [hk1, hk2, hk3, hk4, hpd]
                | error e => simp [hk1, hk2, hk3, hk4, hpd]
              · simp [hk1, hk2, hk3, hk4]
    have hrec := ih (parseStep (dsl, acc) t).1 (parseStep (dsl, acc) t).2
    simp only [Prod.mk.eta] at hrec
    rw [hrec, hstep]

/-! Section: helper lemmas about the persistence layer -/

theorem insertConversation_preserves (db : Db) (c : ConvData)
    (hu : UniquePairs db) (hn : IdsNodup db) :
    UniquePairs (insertConversation db c).1 ∧ IdsNodup (insertConversation db c).1 := by
  unfold insertConversation
  cases hf : db.conversations.find? (fun r => convConflicts c r) with
  | some r =>
    simp only
    set f : ConvRow → ConvRow :=
      fun row => if row.id = r.id then { row with data := upsertFields row.data c } else row
      with hfdef
    have hfid : ∀ x : ConvRow, (f x).id = x.id := by
      intro x; by_cases hx : x.id = r.id <;> simp [hfdef, hx]
    have hfpair : ∀ x : ConvRow,
        (f x).data.provider = x.data.provider ∧ (f x).data.external_id = x.data.external_id := by
      intro x; by_cases hx : x.id = r.id <;> simp [hfdef, hx, upsertFields]
    constructor
    · intro r1 h1 r2 h2 hp he hne
      obtain ⟨x1, hx1, hmap1⟩ := List.mem_map.mp h1
      obtain ⟨x2, hx2, hmap2⟩ := List.mem_map.mp h2
      have hx12 : x1 = x2 := by
        apply hu x1 hx1 x2 hx2
        · rw [← (hfpair x1).1, ← (hfpair x2).1, hmap1, hmap2, hp]
        · rw [← (hfpair x1).2, ← (hfpair x2).2, hmap1, hmap2, he]
        · rw [← (hfpair x1).2, hmap1]; exact hne
      rw [← hmap1, ← hmap2, hx12]
    · constructor
      · have hmm : (db.conversations.map f).map (fun r => r.id) =
            db.conversations.map (fun r => r.id) := by
          rw [List.map_map]
          exact List.map_congr_left (fun x _ => hfid x)
        rw [hmm]
        exact hn.1
      · intro r1 h1
        obtain ⟨x1, hx1, hmap1⟩ := List.mem_map.mp h1
        rw [← hmap1, hfid]
        exact hn.2 x1 hx1
  | none =>
    simp only
    have hnoc : ∀ x ∈ db.conversations, convConflicts c x = false := by
      intro x hx
      have := List.find?_eq_none.mp hf x hx
      simpa using this
    have hkey : ∀ x ∈ db.conversations, x.data.provider = c.provider →
        x.data.external_id = c.external_id → x.data.external_id ≠ none → False := by
      intro x hx hp he hne
      obtain ⟨e, hee⟩ : ∃ e, x.data.external_id = some e := by
        cases hxe : x.data.external_id with
        | none => exact absurd hxe hne
        | some e => exact ⟨e, rfl⟩
      have hce : c.external_id = some e := he ▸ hee
      have hconf : convConflicts c x = true := by
        unfold convConflicts
        rw [hce, hee]
        simp [hp]
      rw [hnoc x hx] at hconf
      exact Bool.false_ne_true hconf
    constructor
    · intro r1 h1 r2 h2 hp he hne
      rcases List.mem_append.mp h1 with hx1 | hx1 <;>
        rcases List.mem_append.mp h2 with hx2 | hx2
      · exact hu r1 hx1 r2 hx2 hp he hne
      · have hx2e : r2 = ⟨db.nextConvId, c⟩ := by simpa using hx2
        subst hx2e
        exact absurd (hkey r1 hx1 hp he hne) (fun h => h)
      · have hx1e : r1 = ⟨db.nextConvId, c⟩ := by simpa using hx1
        subst hx1e
        have hne2 : r2.data.external_id ≠ none := by rw [← he]; exact hne
        exact absurd (hkey r2 hx2 hp.symm he.symm hne2) (fun h => h)
      · have h1e : r1 = ⟨db.nextConvId, c⟩ := by simpa using hx1
        have h2e : r2 = ⟨db.nextConvId, c⟩ := by simpa using hx2
        rw [h1e, h2e]
    · constructor
      · rw [List.map_append, List.nodup_append]
        refine ⟨hn.1, List.nodup_singleton _, ?_⟩
        intro a ha hb
        have hb2 : a = db.nextConvId := by simpa using hb
        obtain ⟨x, hx, hxa⟩ := List.mem_map.mp ha
        have := hn.2 x hx
        omega
      · intro r1 h1
        rcases List.mem_append.mp h1 with hx1 | hx1
        · have := hn.2 r1 hx1
          simp only
          omega
        · have h1e : r1 = ⟨db.nextConvId, c⟩ := by simpa using hx1
          rw [h1e]
          simp

theorem msgFold_conversations (msgs : List MsgData) (db : Db) (cid : Nat) :
    (msgs.foldl (fun dd m => insertMessage dd cid m) db).conversations = db.conversations ∧
    (msgs.foldl (fun dd m => insertMessage dd cid m) db).nextConvId = db.nextConvId := by
  induction msgs generalizing db with
  | nil => exact ⟨rfl, rfl⟩
  | cons m rest ih =>
    rw [List.foldl_cons]
    exact ih (insertMessage db cid m)

theorem inv_transport (db1 db2 : Db) (hc : db2.conversations = db1.conversations)
    (hn : db2.nextConvId = db1.nextConvId) :
    (UniquePairs db1 → UniquePairs db2) ∧ (IdsNodup db1 → IdsNodup db2) := by
  unfold UniquePairs IdsNodup
  rw [hc, hn]
  exact ⟨id, id⟩

theorem insertConversation_messages (db : Db) (c : ConvData) :
    (insertConversation db c).1.messages = db.messages := by
  unfold insertConversation
  cases hf : db.conversations.find? (fun r => convConflicts c r) <;> simp

theorem msgFold_messages_extend (msgs : List MsgData) (db : Db) (cid : Nat) :
    ∃ tail, (msgs.foldl (fun dd m => insertMessage dd cid m) db).messages =
      db.messages ++ tail := by
  induction msgs generalizing db with
  | nil => exact ⟨[], by simp⟩
  | cons m rest ih =>
    rw [List.foldl_cons]
    obtain ⟨tail, htail⟩ := ih (insertMessage db cid m)
    exact ⟨⟨db.nextMsgId, cid, m⟩ :: tail, by rw [htail]; simp [insertMessage]⟩

theorem applyBatchPure_preserves (batch : List (ConvData × List MsgData)) (db : Db)
    (hu : UniquePairs db) (hn : IdsNodup db) :
    UniquePairs (applyBatchPure db batch) ∧ IdsNodup (applyBatchPure db batch) := by
  induction batch generalizing db with
  | nil => exact ⟨hu, hn⟩
  | cons p rest ih =>
    obtain ⟨c, msgs⟩ := p
    unfold applyBatchPure
    rw [List.foldl_cons]
    have hstep := insertConversation_preserves db c hu hn
    have hfold := msgFold_conversations msgs (insertConversation db c).1 (insertConversation db c).2
    have htrans := inv_transport (insertConversation db c).1 _ hfold.1 hfold.2
    exact ih _ (htrans.1 hstep.1) (htrans.2 hstep.2)

theorem applyBatchPure_messages_extend (batch : List (ConvData × List MsgData)) (db : Db) :
    ∃ tail, (applyBatchPure db batch).messages = db.messages ++ tail := by
  induction batch generalizing db with
  | nil => exact ⟨[], by simp [applyBatchPure]⟩
  | cons p rest ih =>
    obtain ⟨c, msgs⟩ := p
    unfold applyBatchPure
    rw [List.foldl_cons]
    obtain ⟨t1, ht1⟩ := msgFold_messages_extend msgs (insertConversation db c).1
      (insertConversation db c).2
    obtain ⟨t2, ht2⟩ := ih (msgs.foldl (fun dd m => insertMessage dd (insertConversation db c).2 m)
      (insertConversation db c).1)
    refine ⟨t1 ++ t2, ?_⟩
    show (applyBatchPure _ rest).messages = _
    rw [ht2, ht1, insertConversation_messages]
    simp

theorem insertMessagesTx_cases (env : Nat → Bool) (tx : Db) (convId : Nat) (ms n : Nat)
    (msgs : List MsgData) :
    (∃ ms2 n2, insertMessagesTx env tx convId ms n msgs =
      Except.ok (msgs.foldl (fun d m => insertMessage d convId m) tx, ms2, n2)) ∨
    insertMessagesTx env tx convId ms n msgs = Except.error () := by
  induction msgs generalizing tx ms n with
  | nil => exact Or.inl ⟨ms, n, rfl⟩
  | cons m rest ih =>
    rw [List.foldl_cons]
    unfold insertMessagesTx
    cases he : env n with
    | true =>
      simp only [if_true]
      exact ih (insertMessage tx convId m) (ms + 1) (n + 1)
    | false => simp

theorem insertBatchTx_cases (env : Nat → Bool) (tx : Db) (cs ms n : Nat)
    (batch : List (ConvData × List MsgData)) :
    (∃ cs2 ms2 n2, insertBatchTx env tx cs ms n batch =
      Except.ok (applyBatchPure tx batch, cs2, ms2, n2)) ∨
    insertBatchTx env tx cs ms n batch = Except.error () := by
  induction batch generalizing tx cs ms n with
  | nil => exact Or.inl ⟨cs, ms, n, rfl⟩
  | cons p rest ih =>
    obtain ⟨c, msgs⟩ := p
    unfold insertBatchTx applyBatchPure
    rw [List.foldl_cons]
    cases he : env n with
    | true =>
      simp only [if_true]
      rcases insertMessagesTx_cases env (insertConversation tx c).1 (insertConversation tx c).2
          ms (n + 1) msgs with ⟨ms2, n2, hok⟩ | herr
      · rw [hok]
        simpa [applyBatchPure] using
          ih (msgs.foldl (fun d m => insertMessage d (insertConversation tx c).2 m)
            (insertConversation tx c).1) (cs + 1) ms2 n2
      · rw [herr]
        simp
    | false => simp

theorem batch_result_cases (env : Nat → Bool) (db : Db)
    (batch : List (ConvData × List MsgData)) :
    (process_conversation_batch env db batch).1 = applyBatchPure db batch ∨
    (process_conversation_batch env db batch).1 = db := by
  unfold process_conversation_batch
  rcases insertBatchTx_cases env db 0 0 0 batch with ⟨cs2, ms2, n2, hok⟩ | herr
  · rw [hok]
    cases he : env n2 with
    | true => exact Or.inl (by simp [he])
    | false => exact Or.inr (by simp [he])
  · rw [herr]
    exact Or.inr rfl

/-! Section: helper lemmas about the LRU cache -/

theorem cacheInsertAll_state {K V : Type} [DecidableEq K] (cap ttl : Nat) (tf : K → Nat)
    (vf : K → V) (ks : List K) (hcap : 1 ≤ cap) (hnd : ks.Nodup) :
    cacheInsertAll cap ttl tf vf ks = (ks.reverse.take cap).map (entryOf ttl tf vf) := by
  induction ks using List.reverseRecOn with
  | nil => simp [cacheInsertAll]
  | append_singleton p k ih =>
    have hp : p.Nodup := hnd.of_append_left
    have hk : k ∉ p := by
      intro hin
      have := List.disjoint_of_nodup_append hnd hin
      simp at this
    have hfold : cacheInsertAll cap ttl tf vf (p ++ [k]) =
        cachePut cap ttl (tf k) (cacheInsertAll cap ttl tf vf p) k (vf k) := by
      unfold cacheInsertAll
      rw [List.foldl_append]
      rfl
    rw [hfold, ih hp]
    set st := (p.reverse.take cap).map (entryOf ttl tf vf) with hst
    have hnotin : st.any (fun e => decide (e.key = k)) = false := by
      rw [List.any_eq_false]
      intro e he
      obtain ⟨k2, hk2, hke⟩ := List.mem_map.mp he
      have hk2p : k2 ∈ p := List.mem_reverse.mp (List.mem_of_mem_take hk2)
      simp only [← hke, entryOf, decide_eq_true_eq]
      intro heq
      exact hk (heq ▸ hk2p)
    obtain ⟨c, rfl⟩ : ∃ c, cap = c + 1 := ⟨cap - 1, by omega⟩
    have hlen : st.length = min (c + 1) p.length := by
      rw [hst, List.length_map, List.length_take, List.length_reverse]
    unfold cachePut
    simp only [hnotin, Bool.false_eq_true, if_false]
    rw [List.reverse_append]
    simp only [List.reverse_cons, List.reverse_nil, List.nil_append, List.singleton_append]
    rw [List.take_succ_cons, List.map_cons]
    by_cases hc : c + 1 ≤ st.length
    · rw [if_pos hc]
      have hcp : c + 1 ≤ p.length := by omega
      have hdrop : st.dropLast = (p.reverse.take c).map (entryOf ttl tf vf) := by
        rw [hst, ← List.map_dropLast]
        congr 1
        rw [List.dropLast_eq_take, List.length_take, List.length_reverse]
        have hmin : min (c + 1) p.length = c + 1 := by omega
        rw [hmin, List.take_take]
        congr 1
        omega
      rw [hdrop]
      rfl
    · rw [if_neg hc]
      have hcp : p.length < c + 1 := by omega
      have h1 : p.reverse.take (c + 1) = p.reverse := by
        apply List.take_of_length_le
        rw [List.length_reverse]
        omega
      have h2 : p.reverse.take c = p.reverse := by
        apply List.take_of_length_le
        rw [List.length_reverse]
        omega
      rw [hst, h1, h2]
      rfl

theorem find?_entry_mem {K V : Type} [DecidableEq K] (ttl : Nat) (tf : K → Nat) (vf : K → V)
    (l : List K) (k : K) (hk : k ∈ l) :
    (l.map (entryOf ttl tf vf)).find? (fun e => decide (e.key = k)) =
      some (entryOf ttl tf vf k) := by
  induction l with
  | nil => simp at hk
  | cons c cs ih =>
    rw [List.map_cons]
    by_cases hck : c = k
    · subst hck
      rw [List.find?_cons_of_pos]
      simp [entryOf]
    · rw [List.find?_cons_of_neg]
      · exact ih (by rcases List.mem_cons.mp hk with h | h; exact absurd h.symm hck; exact h)
      · simp [entryOf, hck]

theorem find?_entry_none {K V : Type} [DecidableEq K] (ttl : Nat) (tf : K → Nat) (vf : K → V)
    (l : List K) (k : K) (hk : k ∉ l) :
    (l.map (entryOf ttl tf vf)).find? (fun e => decide (e.key = k)) = none := by
  rw [List.find?_eq_none]
  intro e he
  obtain ⟨k2, hk2, hke⟩ := List.mem_map.mp he
  simp only [← hke, entryOf, decide_eq_true_eq]
  intro heq
  exact hk (heq ▸ hk2)

/-! Section: the claims -/

/-- Claim C1, counterexample: with a NULL external_id, SQLite never reports a
conflict, so importing the same (provider, NULL) conversation twice inserts
two rows; the pair (xai, NULL) then occurs on two distinct rows, refuting
uniqueness of (provider, external_id) as claimed. -/
theorem c1_counterexample :
    ((process_conversation_batch (fun _ => true) emptyDb
        [(convNullRow, []), (convNullRow, [])]).1.conversations.map
      (fun r => (r.id, r.data.provider, r.data.external_id))) =
      [(1, "xai", none), (2, "xai", none)] ∧
    ¬ UniquePairsClaimed (process_conversation_batch (fun _ => true) emptyDb
        [(convNullRow, []), (convNullRow, [])]).1 := by
  constructor
  · decide
  · intro hu
    have h1 : (⟨1, convNullRow⟩ : ConvRow) ∈ (process_conversation_batch (fun _ => true) emptyDb
        [(convNullRow, []), (convNullRow, [])]).1.conversations := by decide
    have h2 : (⟨2, convNullRow⟩ : ConvRow) ∈ (process_conversation_batch (fun _ => true) emptyDb
        [(convNullRow, []), (convNullRow, [])]).1.conversations := by decide
    have h12 := hu _ h1 _ h2 rfl rfl
    simp at h12

/-- Claim C1, amended: for every pair (provider, external_id) with a non-NULL
external_id, at most one conversation row exists, and process_conversation_batch
preserves this while never deleting message rows; re-importing a conversation
whose non-NULL pair already exists updates the found row in place (same id, no
new row, messages untouched), overwriting exactly the mutable columns and
keeping created_at; a NULL external_id instead inserts a fresh row each time. -/
theorem c1_upsert_semantics :
    (∀ (env : Nat → Bool) (db : Db) (batch : List (ConvData × List MsgData)),
      UniquePairs db → IdsNodup db →
      UniquePairs (process_conversation_batch env db batch).1 ∧
      ∃ tail, (process_conversation_batch env db batch).1.messages = db.messages ++ tail) ∧
    (∀ (db : Db) (c : ConvData) (r : ConvRow),
      db.conversations.find? (fun row => convConflicts c row) = some r →
      (insertConversation db c).2 = r.id ∧
      (insertConversation db c).1.conversations.length = db.conversations.length ∧
      (insertConversation db c).1.messages = db.messages ∧
      (⟨r.id, upsertFields r.data c⟩ : ConvRow) ∈ (insertConversation db c).1.conversations ∧
      upsertFields r.data c =
        { r.data with
          title := c.title, model := c.model, updated_at := c.updated_at,
          raw_json := c.raw_json, system_prompt := c.system_prompt,
          temperature := c.temperature, max_tokens := c.max_tokens, user_id := c.user_id }) := by
  constructor
  · intro env db batch hu hn
    rcases batch_result_cases env db batch with h | h
    · rw [h]
      exact ⟨(applyBatchPure_preserves batch db hu hn).1,
        applyBatchPure_messages_extend batch db⟩
    · rw [h]
      exact ⟨hu, ⟨[], by simp⟩⟩
  · intro db c r hf
    have hmem : r ∈ db.conversations := List.mem_of_find?_eq_some hf
    unfold insertConversation
    rw [hf]
    refine ⟨rfl, by simp, rfl, ?_, rfl⟩
    simp only
    exact List.mem_map.mpr ⟨r, hmem, by simp⟩

/-- Claim C1, witness: the hypotheses hold on a store with one imported
conversation, and re-importing the same external id targets row 1. -/
theorem c1_witness :
    UniquePairs dbOneRow ∧ IdsNodup dbOneRow ∧
    UniquePairs (process_conversation_batch (fun _ => true) dbOneRow [(convExtB, [])]).1 ∧
    (insertConversation dbOneRow convExtB).2 = 1 :=
  ⟨by decide, by decide,
   (c1_upsert_semantics.1 (fun _ => true) dbOneRow [(convExtB, [])] (by decide) (by decide)).1,
   (c1_upsert_semantics.2 dbOneRow convExtB ⟨1, convExtA⟩ (by decide)).1⟩

/-- Claim C2: process_conversation_batch is atomic. For every environment of
statement outcomes, every initial store and every batch, the returned store is
either the full pure application of the batch together with an ok result, or
exactly the untouched initial store together with an error; no partial batch is
ever published. -/
theorem c2_batch_atomicity (env : Nat → Bool) (db : Db)
    (batch : List (ConvData × List MsgData)) :
    (∃ stats, process_conversation_batch env db batch =
      (applyBatchPure db batch, Except.ok stats)) ∨
    process_conversation_batch env db batch = (db, Except.error ()) := by
  unfold process_conversation_batch
  rcases insertBatchTx_cases env db 0 0 0 batch with ⟨cs2, ms2, n2, hok⟩ | herr
  · rw [hok]
    cases he : env n2 with
    | true => exact Or.inl ⟨⟨cs2, ms2⟩, by simp [he]⟩
    | false => exact Or.inr (by simp [he])
  · rw [herr]
    exact Or.inr rfl

/-- Claim C3: on a cache miss, incremental_search selects the LIKE-based short
path exactly when the query is shorter than 3 bytes and the FTS path exactly
when it is at least 3 bytes, so the two paths are mutually exclusive; the short
path matches the pattern query-then-percent. -/
theorem c3_path_selection (q : List Char) :
    (incremental_search_path false q = QueryPath.shortLike ↔ utf8Len q < 3) ∧
    (incremental_search_path false q = QueryPath.fullText ↔ 3 ≤ utf8Len q) ∧
    like_pattern q = q ++ ['%'] := by
  refine ⟨?_, ?_, rfl⟩ <;>
  · unfold incremental_search_path
    by_cases h : utf8Len q < 3 <;> simp [h] <;> omega

/-- Claim C3, witness: a two-byte query takes the short path and a three-byte
query takes the FTS path. -/
theorem c3_witness :
    incremental_search_path false ("ab".toList) = QueryPath.shortLike ∧
    incremental_search_path false ("abc".toList) = QueryPath.fullText :=
  ⟨(c3_path_selection ("ab".toList)).1.mpr (by decide),
   (c3_path_selection ("abc".toList)).2.1.mpr (by decide)⟩

/-- Claim C4, counterexample: parsing after:2024-01-01 stores 1702944000, while
the Unix epoch integer of 2024-01-01 at midnight UTC is 1704067200; parse_date
uses 365-day years and 30-day months, so the stored value is not the epoch
integer the claim requires. -/
theorem c4_counterexample :
    (SearchDSL.parse ("after:2024-01-01".toList)).after_timestamp = some 1702944000 ∧
    epochOfDate 2024 1 1 = 1704067200 ∧ (1702944000 : Int) ≠ 1704067200 :=
  ⟨by decide, by decide, by decide⟩

/-- Claim C4, amended: for every token after:Y-M-D or before:Y-M-D whose three
fields are nonempty digit strings with values at most 2147483647 (the i32
range the parse accepts; larger fields fail the i32 parse and fall back to the
defaults 2024, 1, 1), SearchDSL.parse sets the corresponding timestamp field to
the approximate value (Y - 1970) * 31536000 + (M - 1) * 2592000 + (D - 1) * 86400,
treating every year as 365 days and every month as 30 days, not to the Unix
epoch integer of the calendar date. -/
theorem c4_parse_date_approx (ys ms ds : List Char)
    (hys : ys ≠ []) (hms : ms ≠ []) (hds : ds ≠ [])
    (hysd : ∀ c ∈ ys, isAsciiDigit c = true) (hmsd : ∀ c ∈ ms, isAsciiDigit c = true)
    (hdsd : ∀ c ∈ ds, isAsciiDigit c = true)
    (hysb : digitsVal ys ≤ 2147483647) (hmsb : digitsVal ms ≤ 2147483647)
    (hdsb : digitsVal ds ≤ 2147483647) :
    (SearchDSL.parse ("after:".toList ++ (ys ++ ('-' :: (ms ++ ('-' :: ds)))))).after_timestamp =
      some (((digitsVal ys : Int) - 1970) * 31536000 +
            ((digitsVal ms : Int) - 1) * 2592000 +
            ((digitsVal ds : Int) - 1) * 86400) ∧
    (SearchDSL.parse ("before:".toList ++ (ys ++ ('-' :: (ms ++ ('-' :: ds)))))).before_timestamp =
      some (((digitsVal ys : Int) - 1970) * 31536000 +
            ((digitsVal ms : Int) - 1) * 2592000 +
            ((digitsVal ds : Int) - 1) * 86400) := by
  have hvnws : ∀ c ∈ (ys ++ ('-' :: (ms ++ ('-' :: ds)))), rustIsWhitespace c = false := by
    intro c h
    rcases List.mem_append.mp h with h2 | h2
    · exact digit_not_ws c (hysd c h2)
    · rcases List.mem_cons.mp h2 with h3 | h3
      · subst h3; decide
      · rcases List.mem_append.mp h3 with h4 | h4
        · exact digit_not_ws c (hmsd c h4)
        · rcases List.mem_cons.mp h4 with h5 | h5
          · subst h5; decide
          · exact digit_not_ws c (hdsd c h5)
  have hdate : parse_date (ys ++ ('-' :: (ms ++ ('-' :: ds)))) =
      Except.ok (((digitsVal ys : Int) - 1970) * 365 * 24 * 60 * 60 +
                 ((digitsVal ms : Int) - 1) * 30 * 24 * 60 * 60 +
                 ((digitsVal ds : Int) - 1) * 24 * 60 * 60) := by
    unfold parse_date splitOnDash
    rw [splitDashAux_head ys _ [] (fun c hc => digit_ne_dash c (hysd c hc))]
    rw [splitDashAux_head ms _ [] (fun c hc => digit_ne_dash c (hmsd c hc))]
    rw [splitDashAux_no_dash ds [] (fun c hc => digit_ne_dash c (hdsd c hc))]
    simp only [List.reverse_nil, List.nil_append, List.length_cons, List.length_nil, if_true,
      List.getElem!_cons_zero, List.getElem!_cons_succ]
    rw [parseI32_digits ys hys hysd hysb, parseI32_digits ms hms hmsd hmsb,
        parseI32_digits ds hds hdsd hdsb]
    simp only [Option.getD_some]
  constructor
  · have hnws : ∀ c ∈ ("after:".toList ++ (ys ++ ('-' :: (ms ++ ('-' :: ds))))),
        rustIsWhitespace c = false := by
      intro c hc
      rcases List.mem_append.mp hc with h | h
      · fin_cases h <;> decide
      · exact hvnws c h
    have hne : ("after:".toList ++ (ys ++ ('-' :: (ms ++ ('-' :: ds))))) ≠ [] := by simp
    have hsplit := splitWhitespace_single _ hne hnws
    have htok : ("after:".toList ++ (ys ++ ('-' :: (ms ++ ('-' :: ds))))) =
        "after".toList ++ ':' :: (ys ++ ('-' :: (ms ++ ('-' :: ds)))) := rfl
    have hcolon := splitOnceColon_left ("after".toList) (ys ++ ('-' :: (ms ++ ('-' :: ds))))
      (by intro c hc; fin_cases hc <;> decide)
    have hstep : parseStep (({} : SearchDSL), ([] : List (List Char)))
        ("after:".toList ++ (ys ++ ('-' :: (ms ++ ('-' :: ds))))) =
        (({ after_timestamp := some (((digitsVal ys : Int) - 1970) * 365 * 24 * 60 * 60 +
              ((digitsVal ms : Int) - 1) * 30 * 24 * 60 * 60 +
              ((digitsVal ds : Int) - 1) * 24 * 60 * 60) } : SearchDSL), []) := by
      unfold parseStep
      rw [htok, hcolon]
      simp only
      rw [if_neg (by decide), if_neg (by decide)]
      simp only [if_true]
      rw [hdate]
    unfold SearchDSL.parse
    rw [hsplit]
    simp only [List.foldl_cons, List.foldl_nil, hstep]
    simp only [ne_eq, not_true_eq_false, if_false, Option.some.injEq]
    ring
  · have hnws : ∀ c ∈ ("before:".toList ++ (ys ++ ('-' :: (ms ++ ('-' :: ds))))),
        rustIsWhitespace c = false := by
      intro c hc
      rcases List.mem_append.mp hc with h | h
      · fin_cases h <;> decide
      · exact hvnws c h
    have hne : ("before:".toList ++ (ys ++ ('-' :: (ms ++ ('-' :: ds))))) ≠ [] := by simp
    have hsplit := splitWhitespace_single _ hne hnws
    have htok : ("before:".toList ++ (ys ++ ('-' :: (ms ++ ('-' :: ds))))) =
        "before".toList ++ ':' :: (ys ++ ('-' :: (ms ++ ('-' :: ds)))) := rfl
    have hcolon := splitOnceColon_left ("before".toList) (ys ++ ('-' :: (ms ++ ('-' :: ds))))
      (by intro c hc; fin_cases hc <;> decide)
    have hstep : parseStep (({} : SearchDSL), ([] : List (List Char)))
        ("before:".toList ++ (ys ++ ('-' :: (ms ++ ('-' :: ds))))) =
        (({ before_timestamp := some (((digitsVal ys : Int) - 1970) * 365 * 24 * 60 * 60 +
              ((digitsVal ms : Int) - 1) * 30 * 24 * 60 * 60 +
              ((digitsVal ds : Int) - 1) * 24 * 60 * 60) } : SearchDSL), []) := by
      unfold parseStep
      rw [htok, hcolon]
      simp only
      rw [if_neg (by decide), if_neg (by decide), if_neg (by decide)]
      simp only [if_true]
      rw [hdate]
    unfold SearchDSL.parse
    rw [hsplit]
    simp only [List.foldl_cons, List.foldl_nil, hstep]
    simp only [ne_eq, not_true_eq_false, if_false, Option.some.injEq]
    ring

/-- Claim C4, witness: the amended law at the concrete tokens after:2024-01-01
and before:2024-01-01. -/
theorem c4_witness :
    ("2024".toList ≠ [] ∧ (∀ c ∈ "2024".toList, isAsciiDigit c = true) ∧
      digitsVal "2024".toList ≤ 2147483647) ∧
    (SearchDSL.parse ("after:".toList ++
        ("2024".toList ++ ('-' :: ("01".toList ++ ('-' :: "01".toList)))))).after_timestamp =
      some (((digitsVal "2024".toList : Int) - 1970) * 31536000 +
            ((digitsVal "01".toList : Int) - 1) * 2592000 +
            ((digitsVal "01".toList : Int) - 1) * 86400) ∧
    (SearchDSL.parse ("before:".toList ++
        ("2024".toList ++ ('-' :: ("01".toList ++ ('-' :: "01".toList)))))).before_timestamp =
      some (((digitsVal "2024".toList : Int) - 1970) * 31536000 +
            ((digitsVal "01".toList : Int) - 1) * 2592000 +
            ((digitsVal "01".toList : Int) - 1) * 86400) :=
  ⟨⟨by decide, by decide, by decide⟩,
   (c4_parse_date_approx "2024".toList "01".toList "01".toList (by decide) (by decide) (by decide)
     (by decide) (by decide) (by decide) (by decide) (by decide) (by decide)).1,
   (c4_parse_date_approx "2024".toList "01".toList "01".toList (by decide) (by decide) (by decide)
     (by decide) (by decide) (by decide) (by decide) (by decide) (by decide)).2⟩

/-- Claim C5: SearchDSL.parse is total by construction, and its free-text field
is exactly the in-order space-join of the tokens that are either bare or carry a
key outside the closed set provider, role, after, before; it is none when no
such token exists. -/
theorem c5_dsl_free_text (q : List Char) :
    (SearchDSL.parse q).text =
      if freeTokens q = [] then none else some (joinSpaces (freeTokens q)) := by
  unfold SearchDSL.parse freeTokens
  have hsnd := foldl_parseStep_snd (splitWhitespace q) {} []
  have hfst := foldl_parseStep_fst_text (splitWhitespace q) {} []
  simp only [List.nil_append] at hsnd
  by_cases h : ((splitWhitespace q).foldl parseStep ({}, [])).2 = []
  · rw [if_neg (not_not_intro h), if_pos (hsnd ▸ h)]
    exact hfst
  · have hne : List.filter (fun t => !isRecognizedKeyToken t) (splitWhitespace q) ≠ [] := by
      rw [← hsnd]; exact h
    rw [if_pos h, if_neg hne]
    simp [hsnd]

/-- Claim C6, counterexample: the numeric branch of parse_timestamp in the
importer treats every value as seconds; 1705316400000 exceeds 1e11 yet is not
interpreted as milliseconds, so 1705316400 and 1705316400000 denote different
instants under that function. -/
theorem c6_counterexample :
    (1705316400000 : Int) > 100000000000 ∧
    import_parse_timestamp_number 1705316400000 = some 1705316400000000 ∧
    import_parse_timestamp_number 1705316400000 ≠ import_parse_timestamp_number 1705316400 :=
  ⟨by decide, by decide, by decide⟩

/-- Claim C6, amended: the backend parse_timestamp_numeric applies the magnitude
heuristic, reading values above 1e11 as milliseconds and others as seconds, so
its two example inputs agree; the importer parse_timestamp instead reads every
in-range numeric value as seconds. -/
theorem c6_numeric_timestamp :
    (∀ now v : Int, 100000000000 < v →
        chronoMinSecs ≤ Int.ediv v 1000 → Int.ediv v 1000 ≤ chronoMaxSecs →
        parse_timestamp_numeric now v = v) ∧
    (∀ now v : Int, v ≤ 100000000000 → chronoMinSecs ≤ v → v ≤ chronoMaxSecs →
        parse_timestamp_numeric now v = v * 1000) ∧
    (∀ now : Int,
        parse_timestamp_numeric now 1705316400 = parse_timestamp_numeric now 1705316400000) ∧
    (∀ v : Int, chronoMinSecs ≤ v → v ≤ chronoMaxSecs →
        import_parse_timestamp_number v = some (v * 1000)) := by
  refine ⟨?_, ?_, ?_, ?_⟩
  · intro now v h1 h2 h3
    simp [parse_timestamp_numeric, fromTimestampMillis, h1, h2, h3]
  · intro now v h1 h2 h3
    have hng : ¬ (100000000000 : Int) < v := by omega
    simp [parse_timestamp_numeric, fromTimestampSecs, hng, h2, h3]
  · intro now
    norm_num [parse_timestamp_numeric, fromTimestampMillis, fromTimestampSecs]
  · intro v h1 h2
    simp [import_parse_timestamp_number, fromTimestampSecs, h1, h2]

/-- Claim C6, witness: the backend heuristic at the two example inputs and the
importer seconds reading at the first one. -/
theorem c6_witness :
    (100000000000 : Int) < 1705316400000 ∧
    parse_timestamp_numeric 0 1705316400000 = 1705316400000 ∧
    import_parse_timestamp_number 1705316400 = some 1705316400000 :=
  ⟨by decide,
   c6_numeric_timestamp.1 0 1705316400000 (by decide) (by decide) (by decide),
   by
     have h := c6_numeric_timestamp.2.2.2 1705316400 (by decide) (by decide)
     simpa using h⟩

/-- Claim C7, counterexample: the same attachment processed in a second message
whose body does not contain the extracted text still yields a MediaFile with
extracted_content cleared, because the first-stored entry for the shared
logical path is returned as-is; so extracted_content is not preserved whenever
the body lacks the text, refuting the per-message clause of the claim. -/
theorem c7_counterexample :
    strContains "goodbye" "hello" = false ∧
    c7Att.extracted_content = some "hello" ∧
    ((process_attachment (fun _ => none) c7Att "conv-1" 1 0
        (process_attachment (fun _ => none) c7Att "conv-1" 0 0 [] "say hello world").2
        "goodbye").1.map (fun m => m.extracted_content)) = some none :=
  ⟨by decide, by decide, by decide⟩

/-- Claim C7, amended: for an attachment whose logical path is new, the stored
MediaFile clears extracted_content exactly when the message body contains that
text and preserves it otherwise, and the all_media map afterwards maps the
logical path to that same MediaFile; for an attachment whose logical path was
already processed, the previously stored MediaFile is returned unchanged and the
map is untouched, so identical logical paths share one entry. The message body
is never modified by process_attachment, which only reads it. -/
theorem c7_attachment_dedup :
    (∀ (mimeOf : String → Option String) (att : AttachmentDoc) (convUuid : String)
        (msgIdx attIdx : Nat) (allMedia : List (String × MediaFile)) (content fileName : String)
        (extracted : String),
      att.file_name = some fileName →
      mediaLookup allMedia (logicalPathOf att convUuid msgIdx attIdx fileName) = none →
      att.extracted_content = some extracted →
      (strContains content extracted = true →
        (process_attachment mimeOf att convUuid msgIdx attIdx allMedia content).1.map
          (fun m => m.extracted_content) = some none) ∧
      (strContains content extracted = false →
        (process_attachment mimeOf att convUuid msgIdx attIdx allMedia content).1.map
          (fun m => m.extracted_content) = some (some extracted)) ∧
      mediaLookup (process_attachment mimeOf att convUuid msgIdx attIdx allMedia content).2
          (logicalPathOf att convUuid msgIdx attIdx fileName) =
        (process_attachment mimeOf att convUuid msgIdx attIdx allMedia content).1) ∧
    (∀ (mimeOf : String → Option String) (att : AttachmentDoc) (convUuid : String)
        (msgIdx attIdx : Nat) (allMedia : List (String × MediaFile)) (content fileName : String)
        (m : MediaFile),
      att.file_name = some fileName →
      mediaLookup allMedia (logicalPathOf att convUuid msgIdx attIdx fileName) = some m →
      process_attachment mimeOf att convUuid msgIdx attIdx allMedia content = (some m, allMedia)) := by
  constructor
  · intro mimeOf att convUuid msgIdx attIdx allMedia content fileName extracted hfn hlook hex
    have hpath : ("claude_attachments/" ++ convUuid ++ "/" ++
        (att.uuid.getD ("msg" ++ toString msgIdx ++ "_att" ++ toString attIdx)) ++ "/" ++ fileName)
        = logicalPathOf att convUuid msgIdx attIdx fileName := rfl
    have hfind : allMedia.find?
        (fun p => decide (p.1 = logicalPathOf att convUuid msgIdx attIdx fileName)) = none := by
      unfold mediaLookup at hlook
      exact Option.map_eq_none.mp hlook
    cases hc : strContains content extracted with
    | true =>
      refine ⟨fun _ => ?_, fun hfalse => by simp [hc] at hfalse, ?_⟩ <;>
        simp [process_attachment, hfn, hpath, mediaLookup, hfind, hex, hc]
    | false =>
      refine ⟨fun htrue => by simp [hc] at htrue, fun _ => ?_, ?_⟩ <;>
        simp [process_attachment, hfn, hpath, mediaLookup, hfind, hex, hc]
  · intro mimeOf att convUuid msgIdx attIdx allMedia content fileName m hfn hlook
    have hpath : ("claude_attachments/" ++ convUuid ++ "/" ++
        (att.uuid.getD ("msg" ++ toString msgIdx ++ "_att" ++ toString attIdx)) ++ "/" ++ fileName)
        = logicalPathOf att convUuid msgIdx attIdx fileName := rfl
    simp [process_attachment, hfn, hpath, hlook]

/-- Claim C7, witness: a fresh attachment whose text occurs in the body is
stored with extracted_content cleared. -/
theorem c7_witness :
    strContains "xyz abc" "abc" = true ∧
    (process_attachment (fun _ => none) c7AttW "cw" 0 0 [] "xyz abc").1.map
      (fun m => m.extracted_content) = some none :=
  ⟨by decide,
   (c7_attachment_dedup.1 (fun _ => none) c7AttW "cw" 0 0 [] "xyz abc" "f.txt" "abc"
      rfl rfl rfl).1 (by decide)⟩

/-- Claim C8, counterexample: a ChatGPT document that supplies the external
conversation identifier abc123 still receives the hash-based id, which is not
chatgpt_abc123, refuting the claim that the external identifier is used when
available. -/
theorem c8_counterexample :
    chatgptConversationId (some "abc123") "conversations.json" 0 ≠ "chatgpt_abc123" ∧
    chatgptConversationId (some "abc123") "conversations.json" 0 =
      generate_conversation_id "chatgpt" "conversations.json" 0 :=
  ⟨by decide, rfl⟩

/-- Claim C8, amended: ids are deterministic functions of their inputs; the
Claude parser uses claude_uuid whenever the document supplies a nonempty uuid
and the hash id otherwise, while the ChatGPT parser always uses the hash id of
(provider, file path, index), ignoring any document-supplied identifier. -/
theorem c8_conversation_ids :
    (∀ uuid file idx, uuid ≠ "" →
        claudeConversationId (some uuid) file idx = "claude_" ++ uuid) ∧
    (∀ file idx, claudeConversationId none file idx = generate_conversation_id "claude" file idx) ∧
    (∀ ext file idx,
        chatgptConversationId ext file idx = generate_conversation_id "chatgpt" file idx) := by
  refine ⟨?_, ?_, fun ext file idx => rfl⟩
  · intro uuid file idx h
    simp [claudeConversationId, h]
  · intro file idx
    simp [claudeConversationId]

/-- Claim C8, witness: a nonempty uuid produces the claude_uuid form. -/
theorem c8_witness :
    ("u1" : String) ≠ "" ∧
    claudeConversationId (some "u1") "export.json" 3 = "claude_" ++ "u1" :=
  ⟨by decide, c8_conversation_ids.1 "u1" "export.json" 3 (by decide)⟩

/-- Claim C9: inserting capacity + 1 distinct keys into an empty cache with no
intervening reads evicts exactly the first key inserted: a get of it returns
none, while each of the later capacity keys is still retrievable before its
expiry instant. -/
theorem c9_lru_eviction {K V : Type} [DecidableEq K] (cap ttl : Nat) (tf : K → Nat) (vf : K → V)
    (k0 : K) (rest : List K) (now : Nat)
    (hcap : 1 ≤ cap) (hnd : (k0 :: rest).Nodup) (hlen : rest.length = cap) :
    (cacheGet now (cacheInsertAll cap ttl tf vf (k0 :: rest)) k0).1 = none ∧
    ∀ k ∈ rest, now < tf k + ttl →
      (cacheGet now (cacheInsertAll cap ttl tf vf (k0 :: rest)) k).1 = some (vf k) := by
  have hstate := cacheInsertAll_state cap ttl tf vf (k0 :: rest) hcap hnd
  have hrev : (k0 :: rest).reverse.take cap = rest.reverse := by
    rw [List.reverse_cons]
    apply List.take_left'
    rw [List.length_reverse, hlen]
  rw [hrev] at hstate
  have hk0 : k0 ∉ rest := (List.nodup_cons.mp hnd).1
  constructor
  · unfold cacheGet
    rw [hstate, find?_entry_none _ _ _ _ _ (fun h => hk0 (List.mem_reverse.mp h))]
  · intro k hkr hexp
    unfold cacheGet
    rw [hstate, find?_entry_mem _ _ _ _ _ (List.mem_reverse.mpr hkr)]
    simp only [entryOf]
    rw [if_pos hexp]

/-- Claim C9, witness: a capacity-2 cache after inserting keys 5, 6, 7 has
evicted key 5 while key 6 is still retrievable. -/
theorem c9_witness :
    (1 ≤ 2 ∧ ([5, 6, 7] : List Nat).Nodup ∧ ([6, 7] : List Nat).length = 2) ∧
    (cacheGet 3 (cacheInsertAll 2 10 (fun _ => 0) (fun k => k + 100) [5, 6, 7]) 5).1 =
      (none : Option Nat) ∧
    (cacheGet 3 (cacheInsertAll 2 10 (fun _ => 0) (fun k => k + 100) [5, 6, 7]) 6).1 = some 106 := by
  refine ⟨⟨by decide, by decide, by decide⟩, ?_, ?_⟩
  · exact (c9_lru_eviction 2 10 (fun _ => 0) (fun k => k + 100) 5 [6, 7] 3
      (by decide) (by decide) (by decide)).1
  · have h := (c9_lru_eviction 2 10 (fun _ => 0) (fun k => k + 100) 5 [6, 7] 3
      (by decide) (by decide) (by decide)).2 6 (by decide) (by decide)
    simpa using h

set_option maxRecDepth 100000 in
/-- Claim C10: sanitize_title is not total: on a trimmed title of 201 UTF-8
bytes whose byte 197 falls inside a two-byte character, the byte slice taken
before appending the ellipsis has no character boundary at 197 and the Rust
code panics, modelled here as the none result; the claim that every input
returns is refuted at this input. -/
theorem c10_sanitize_title_panics :
    utf8Len (rustTrim c10FailingTitle) = 201 ∧
    sanitize_title c10FailingTitle ("Untitled".toList) = none := by
  constructor
  · decide
  · decide

end LlmArchive
